import Mathlib

/-!
Verification development for the KMYC lease-ratesheet analyzer.

The JavaScript sources are shallowly embedded here:
* the value parser `parseNumeric` (netlify function `analyze-lease`, enhanced copy),
* the scoring engine (`calculateScore` of the netlify function and `scoreVehicle`
  of `src/components/LexUpload.js`),
* the streaming CSV decoder `streamCsvFile`/`processText` of `LexUpload.js`,
* column resolution (`findColumnIndex`/`buildColumnIndices` of `LexUpload.js`,
  `findColumn` of the netlify function, and the legacy truthiness-checking
  `findColumn`),
* header-row detection and the top-deals comparator.

JavaScript numbers are modelled as exact rationals; where a JS computation can
produce a non-finite number (`parseFloat` returning `Infinity`/`NaN`) the model
makes that explicit with the `JSNum`/`FloatParse` types.  Strings are handled
as `List Char` after an explicit ASCII normalisation, matching the uppercase /
trim / contains operations the sources perform on header cells.
-/

/-- JS `Math.round`: round half towards positive infinity. -/
def mathRound (x : ℚ) : ℤ := ⌊x + 1/2⌋

/-- `Math.round(x * 10) / 10`, the 1-decimal rounding used by the scorers. -/
def round1 (x : ℚ) : ℚ := (mathRound (x * 10) : ℚ) / 10

/-- ASCII uppercase of a character, as `String.prototype.toUpperCase` acts on
the ASCII headers the sources deal with. -/
def upChar (c : Char) : Char :=
  if 'a' ≤ c ∧ c ≤ 'z' then Char.ofNat (c.toNat - 32) else c

/-- Whitespace class used by JS `trim` and the `\s` regex class, restricted to
the ASCII whitespace that can occur in the modelled inputs. -/
def isWsChar (c : Char) : Bool :=
  c = ' ' ∨ c = '\t' ∨ c = '\n' ∨ c = '\r' ∨ c = '\x0b' ∨ c = '\x0c'

/-- Drop leading whitespace. -/
def dropWs (l : List Char) : List Char := l.dropWhile isWsChar

/-- JS `String.prototype.trim` on a character list. -/
def trimChars (l : List Char) : List Char := (dropWs ((dropWs l.reverse)).reverse)

/-- Does `l` start with `p`? (helper for the substring test below). -/
def startsWithList : List Char → List Char → Bool
  | _, [] => true
  | [], _ :: _ => false
  | c :: cs, d :: ds => c = d && startsWithList cs ds

/-- JS `String.prototype.includes`: does `l` contain `p` as a contiguous
substring? -/
def containsSub : List Char → List Char → Bool
  | l, p =>
    if startsWithList l p then true
    else match l with
      | [] => false
      | _ :: cs => containsSub cs p

/-- A raw JS cell value as delivered by the XLSX/CSV layer: a (finite) number,
a string, or a missing value (`null`/`undefined`/anything non-string). -/
inductive JSVal where
  | num (q : ℚ)
  | str (s : String)
  | null
deriving DecidableEq

/-- A JS number as produced by `parseFloat` followed by arithmetic-free use:
either finite or one of the non-finite values. -/
inductive JSNum where
  | fin (q : ℚ)
  | posInf
  | negInf
  | nan
deriving DecidableEq

/-- Result of JS `parseFloat` on a string. -/
inductive FloatParse where
  | nan
  | inf (neg : Bool)
  | val (q : ℚ)
deriving DecidableEq

/-- `JSNum` finiteness. -/
def JSNum.isFinite : JSNum → Bool
  | .fin _ => true
  | _ => false

/-- Numeric view of a `JSNum`; faithful to JS only on finite values, and the
theorems that use it carry the corresponding finiteness hypotheses. -/
def JSNum.toQ : JSNum → ℚ
  | .fin q => q
  | _ => 0

/-- JS `x > 0` on a parsed number (`Infinity > 0` is true, `NaN > 0` false). -/
def JSNum.posB : JSNum → Bool
  | .fin q => 0 < q
  | .posInf => true
  | .negInf => false
  | .nan => false

def isDigitChar (c : Char) : Bool := '0' ≤ c ∧ c ≤ '9'

/-- Numeric value of a decimal digit (`charCode - 48`, written as a table so
that concrete evaluations reduce well). -/
def digitVal (c : Char) : ℕ :=
  if c = '1' then 1 else if c = '2' then 2 else if c = '3' then 3 else
  if c = '4' then 4 else if c = '5' then 5 else if c = '6' then 6 else
  if c = '7' then 7 else if c = '8' then 8 else if c = '9' then 9 else 0

def digitsToNat : List Char → ℕ
  | [] => 0
  | c :: cs => digitsToNat cs + digitVal c * 10 ^ cs.length

/-- Value of a fraction digit string: `digits / 10^len`. -/
def fracToQ (ds : List Char) : ℚ := (digitsToNat ds : ℚ) / 10 ^ ds.length

/-- Parse the optional exponent part `[eE] [+-]? digits` of a JS float literal.
Per `parseFloat`'s longest-valid-prefix rule an `e` not followed by digits is
not consumed.  Returns the exponent (0 when absent or invalid). -/
def parseExponent (l : List Char) : ℤ :=
  match l with
  | c :: rest =>
    if c = 'e' ∨ c = 'E' then
      match rest with
      | '+' :: ds => if (ds.takeWhile isDigitChar) = [] then 0 else (digitsToNat (ds.takeWhile isDigitChar) : ℤ)
      | '-' :: ds => if (ds.takeWhile isDigitChar) = [] then 0 else -(digitsToNat (ds.takeWhile isDigitChar) : ℤ)
      | ds => if (ds.takeWhile isDigitChar) = [] then 0 else (digitsToNat (ds.takeWhile isDigitChar) : ℤ)
    else 0
  | [] => 0

/-- Parse the unsigned part of a JS float literal: either the keyword
`Infinity` or `digits [. digits] [exponent]`, requiring at least one digit. -/
def parseUnsigned (l : List Char) : FloatParse :=
  if startsWithList l ("Infinity".data) then .inf false
  else
    let intPart := l.takeWhile isDigitChar
    let rest1 := l.dropWhile isDigitChar
    let fracPart :=
      match rest1 with
      | '.' :: r => r.takeWhile isDigitChar
      | _ => []
    let rest2 :=
      match rest1 with
      | '.' :: r => r.dropWhile isDigitChar
      | _ => rest1
    if intPart = [] ∧ fracPart = [] then .nan
    else
      let mant : ℚ := (digitsToNat intPart : ℚ) + fracToQ fracPart
      let e := parseExponent rest2
      .val (mant * (10 : ℚ) ^ e)

/-- JS `parseFloat`: skip leading whitespace, optional sign, then the longest
valid prefix (`Infinity` or a decimal literal); `NaN` when no digit parses.
Modelled with exact rational values (no double rounding / overflow). -/
def jsParseFloat (l : List Char) : FloatParse :=
  match dropWs l with
  | '+' :: r => parseUnsigned r
  | '-' :: r =>
    match parseUnsigned r with
    | .nan => .nan
    | .inf _ => .inf true
    | .val q => .val (-q)
  | r => parseUnsigned r

/-- Character class removed by the cleaning regex `/[£$€,\s%]/g` of the
enhanced `parseNumeric`. -/
def isStrippedChar (c : Char) : Bool :=
  c = '£' ∨ c = '$' ∨ c = '€' ∨ c = ',' ∨ c = '%' ∨ isWsChar c

/-- `value.replace(/[£$€,\s%]/g, '')`. -/
def cleanNumeric (l : List Char) : List Char := l.filter (fun c => !isStrippedChar c)

/-- `parseNumeric` of the enhanced netlify `analyze-lease` function:
numbers pass through, non-strings give 0, empty/whitespace-only strings give
0, otherwise the string is stripped of `£$€,%` and whitespace and handed to
`parseFloat`; a `NaN` result gives 0.  (An infinite `parseFloat` result is
*not* caught: `isNaN(Infinity)` is false, so `Infinity` is returned.) -/
def parseNumeric : JSVal → JSNum
  | .num q => .fin q
  | .null => .fin 0
  | .str s =>
    if s.data = [] ∨ trimChars s.data = [] then .fin 0
    else
      match jsParseFloat (cleanNumeric s.data) with
      | .nan => .fin 0
      | .inf b => if b then .negInf else .posInf
      | .val q => .fin q

/-- Character class of the `LexUpload.js` `parseNumber` regex `/[£$,\s%]/g`
(no euro sign). -/
def isStrippedCharLex (c : Char) : Bool :=
  c = '£' ∨ c = '$' ∨ c = ',' ∨ c = '%' ∨ isWsChar c

/-- `parseNumber` of `LexUpload.js`: like `parseNumeric` but with the falsy
check `!v` (empty string) instead of a trim test, and no euro stripping. -/
def parseNumber : JSVal → JSNum
  | .num q => .fin q
  | .null => .fin 0
  | .str s =>
    if s.data = [] then .fin 0
    else
      match jsParseFloat (s.data.filter (fun c => !isStrippedCharLex c)) with
      | .nan => .fin 0
      | .inf b => if b then .negInf else .posInf
      | .val q => .fin q

/-! ## Scoring engine

The cost-efficiency banding appears verbatim in three places (`calculateScore`
and `computeScoreBreakdown` of the netlify function, `scoreVehicle` of
`LexUpload.js`); it is embedded once. -/

/-- Cost-efficiency sub-score: `totalCostVsValue = monthly*term/p11d*100`
banded with inclusive upper boundaries; 0 when monthly or p11d is 0. -/
def costEfficiencyScore (monthly p11d term : ℚ) : ℚ :=
  let totalLeaseCost := monthly * term
  let totalCostVsValue := if 0 < p11d then totalLeaseCost / p11d * 100 else 0
  if p11d = 0 ∨ monthly = 0 then 0
  else if totalCostVsValue ≤ 30 then 100
  else if totalCostVsValue ≤ 40 then 90
  else if totalCostVsValue ≤ 50 then 75
  else if totalCostVsValue ≤ 60 then 60
  else if totalCostVsValue ≤ 70 then 40
  else if totalCostVsValue ≤ 80 then 20
  else 0

/-- `mileage > 0 ? Math.min(100, mileage/15000*100) : 50` (netlify scorer). -/
def mileageScoreStd (mileage : ℚ) : ℚ :=
  if 0 < mileage then min 100 (mileage / 15000 * 100) else 50

/-- `mpg > 0 ? Math.min(100, mpg*1.5) : 50`. -/
def fuelScoreOf (mpg : ℚ) : ℚ := if 0 < mpg then min 100 (mpg * 1.5) else 50

/-- `co2 > 0 ? Math.max(0, 100 - co2/2) : 50`. -/
def emissionsScoreOf (co2 : ℚ) : ℚ := if 0 < co2 then max 0 (100 - co2 / 2) else 50

/-- Netlify `calculateScore` on the already-parsed numeric inputs: term and
mileage default to 36/10000 when they parse to 0, a zero monthly or p11d
short-circuits to 0, and the four component scores combine with the standard
weights 0.6/0.2/0.1/0.1, rounded to one decimal. -/
def calculateScoreQ (monthly p11d mpg co2 term0 mileage0 : ℚ) : ℚ :=
  let term := if term0 = 0 then 36 else term0
  let mileage := if mileage0 = 0 then 10000 else mileage0
  if monthly = 0 ∨ p11d = 0 then 0
  else round1 (costEfficiencyScore monthly p11d term * 0.6 +
    mileageScoreStd mileage * 0.2 + fuelScoreOf mpg * 0.1 + emissionsScoreOf co2 * 0.1)

/-- ASCII lowercase (JS `toLowerCase` on the ASCII fuel-type strings). -/
def lowChar (c : Char) : Char :=
  if 'A' ≤ c ∧ c ≤ 'Z' then Char.ofNat (c.toNat + 32) else c

/-- Parsed numeric inputs of `scoreVehicle` (`LexUpload.js`), i.e. the values
of `parseNumber` on the record's raw fields, plus the raw fuel-type string. -/
structure LexV where
  monthly : ℚ
  p11d : ℚ
  mpg : ℚ
  co2 : ℚ
  term0 : ℚ
  mileage0 : ℚ
  milesPerKwh0 : ℚ
  kwh100 : ℚ
  electricRange : ℚ
  igroup : ℚ
  fuelType : String
deriving DecidableEq

/-- The run-wide price assumptions threaded into `scoreVehicle`. -/
structure Assumptions where
  electricityPricePerKwh : ℚ
  petrolPricePerLitre : ℚ
  dieselPricePerLitre : ℚ
deriving DecidableEq

/-- The concrete assumptions instanced in `LexUpload.js`. -/
def lexAssumptions : Assumptions := ⟨0.30, 1.60, 1.70⟩

/-- `parseNumber(v.term) || 36`. -/
def lexTerm (v : LexV) : ℚ := if v.term0 = 0 then 36 else v.term0

/-- `parseNumber(v.mileage) || 10000`. -/
def lexMileage (v : LexV) : ℚ := if v.mileage0 = 0 then 10000 else v.mileage0

/-- Lowercased fuel type string. -/
def lexFuelTypeLower (v : LexV) : List Char := v.fuelType.data.map lowChar

/-- `fuelType.includes('hybrid') || fuelType.includes('plugin') ||
fuelType.includes('phev')`. -/
def lexIsHybrid (v : LexV) : Bool :=
  containsSub (lexFuelTypeLower v) ("hybrid".data) ∨
  containsSub (lexFuelTypeLower v) ("plugin".data) ∨
  containsSub (lexFuelTypeLower v) ("phev".data)

/-- Hybrid MPG adjustment of `scoreVehicle`: applies only when the fuel type
indicates hybrid and mpg exceeds 100. -/
def lexAdjustedMpg (v : LexV) : ℚ :=
  if lexIsHybrid v ∧ 100 < v.mpg then
    if 0 < v.electricRange ∧ v.electricRange < 60 then
      min 70 (45 + v.electricRange / 60 * 25)
    else if 60 ≤ v.electricRange then
      min 80 (60 + (min v.electricRange 100) / 100 * 20)
    else min 65 (v.mpg * 0.3)
  else v.mpg

/-- `Math.min(100, (mileage/15000)*100)` — no positivity guard in this copy. -/
def lexMileageScore (v : LexV) : ℚ := min 100 (lexMileage v / 15000 * 100)

/-- Fuel score from the adjusted MPG. -/
def lexFuelScore (v : LexV) : ℚ := fuelScoreOf (lexAdjustedMpg v)

/-- Emissions score. -/
def lexEmissionsScore (v : LexV) : ℚ := emissionsScoreOf v.co2

/-- `milesPerKwh`, derived from kWh/100km (`62.1371 / kwh100`) when the direct
figure parses to 0 and the kWh/100km figure is nonzero. -/
def lexMilesPerKwh (v : LexV) : ℚ :=
  if v.milesPerKwh0 = 0 then
    (if v.kwh100 ≠ 0 then 62.1371 / v.kwh100 else v.milesPerKwh0)
  else v.milesPerKwh0

/-- Cost-per-mile: electricity path when the fuel type contains `electric`,
co2 is 0, or a milesPerKwh figure is available (fallback 0.12 when it is not
positive); otherwise litres-per-mile (`4.54609 / effectiveMpg`, fallback 0.12)
times the diesel or petrol price. -/
def lexCostPerMile (v : LexV) (a : Assumptions) : ℚ :=
  if containsSub (lexFuelTypeLower v) ("electric".data) ∨ v.co2 = 0 ∨ lexMilesPerKwh v ≠ 0 then
    (if 0 < lexMilesPerKwh v then a.electricityPricePerKwh / lexMilesPerKwh v else 0.12)
  else
    let effectiveMpg := if lexIsHybrid v then lexAdjustedMpg v else v.mpg
    let litrePerMile := if 0 < effectiveMpg then 4.54609 / effectiveMpg else 0.12
    let fuelPrice := if containsSub (lexFuelTypeLower v) ("diesel".data)
      then a.dieselPricePerLitre else a.petrolPricePerLitre
    litrePerMile * fuelPrice

/-- Operating-cost banding: `<=0.08 → 100, <=0.12 → 80, <=0.2 → 40,
<=0.35 → 15, else 0`. -/
def lexOperatingScore (v : LexV) (a : Assumptions) : ℚ :=
  let cpm := lexCostPerMile v a
  if cpm ≤ 0.08 then 100
  else if cpm ≤ 0.12 then 80
  else if cpm ≤ 0.2 then 40
  else if cpm ≤ 0.35 then 15
  else 0

/-- EV-range banding, `null` (none) when the parsed range is 0 (falsy). -/
def lexEvRangeScore (v : LexV) : Option ℚ :=
  if v.electricRange ≠ 0 then
    some (if 250 ≤ v.electricRange then 100
      else if 200 ≤ v.electricRange then 90
      else if 150 ≤ v.electricRange then 70
      else if 100 ≤ v.electricRange then 50
      else 20)
  else none

/-- `insuranceScoreFromGroup` on the parsed group: `null` outside `[1, 50]`
(and for the falsy 0), else `100 - (g-1)/49*100` rounded to 1 decimal. -/
def insuranceScoreFromGroup (g : ℚ) : Option ℚ :=
  if g = 0 ∨ g < 1 ∨ 50 < g then none
  else some (round1 (100 - (g - 1) / 49 * 100))

/-- `baseScore` of `scoreVehicle`: extended weights 0.5 / 0.15 / 0.05 / 0.1 /
0.2 plus the EV-range term with weight 0.05 only when the parsed electric
range is nonzero (truthy). -/
def lexBaseScore (v : LexV) (a : Assumptions) : ℚ :=
  costEfficiencyScore v.monthly v.p11d (lexTerm v) * 0.5 +
  lexMileageScore v * 0.15 +
  lexFuelScore v * 0.05 +
  lexEmissionsScore v * 0.1 +
  lexOperatingScore v a * 0.2 +
  (if v.electricRange ≠ 0 then ((lexEvRangeScore v).getD 0) * 0.05 else 0)

/-- Final `score` of `scoreVehicle`: insurance blending (weight clamped into
`[0, 0.2]`, neutral 50 when the group is unknown) and 1-decimal rounding. -/
def lexScore (v : LexV) (a : Assumptions) (iw0 : ℚ) : ℚ :=
  let insuranceWeight := max 0 (min 0.2 iw0)
  let igScore := (insuranceScoreFromGroup v.igroup).getD 50
  round1 (lexBaseScore v a * (1 - insuranceWeight) + igScore * insuranceWeight)

/-- Non-EV petrol record whose extended base score exceeds 95:
monthly 100, P11D 30000 (ratio 12), mileage 15000, mpg 95, co2 1. -/
def c8Vehicle : LexV := ⟨100, 30000, 95, 1, 36, 15000, 0, 0, 0, 0, "petrol"⟩

/-- The same record with a 200-mile electric range. -/
def c8VehicleEv : LexV := ⟨100, 30000, 95, 1, 36, 15000, 0, 0, 200, 0, "petrol"⟩

/-- JS truthiness of a raw cell value. -/
def jsTruthy : JSVal → Bool
  | .num q => q ≠ 0
  | .str s => s ≠ ""
  | .null => false

/-- Raw vehicle record assembled by the netlify handler (the fields the
scorer and the OTR fallback read; `cap_id`/`upfront`/`format` are not
modelled as nothing proved here depends on them). -/
structure VehicleRaw where
  manufacturer : JSVal
  model : JSVal
  monthly_payment : JSVal
  p11d : JSVal
  otr_price : JSVal
  mpg : JSVal
  co2 : JSVal
  insurance_group : JSVal
  term : JSVal
  mileage : JSVal
deriving DecidableEq

/-- The netlify handler's OTR fallback, applied between record assembly and
scoring: `if (parseNumeric(vehicle.p11d) === 0 && parseNumeric(vehicle.otr_price) > 0)
vehicle.p11d = vehicle.otr_price`. -/
def applyOtrProxy (v : VehicleRaw) : VehicleRaw :=
  if parseNumeric v.p11d = .fin 0 ∧ (parseNumeric v.otr_price).posB then
    { v with p11d := v.otr_price }
  else v

/-- Record-level `calculateScore`: parse each field and score.  (`JSNum.toQ`
is faithful to the JS float semantics on finite parses; theorems using this
wrapper carry the corresponding finiteness hypotheses.) -/
def calculateScore (v : VehicleRaw) : ℚ :=
  calculateScoreQ (parseNumeric v.monthly_payment).toQ (parseNumeric v.p11d).toQ
    (parseNumeric v.mpg).toQ (parseNumeric v.co2).toQ
    (parseNumeric v.term).toQ (parseNumeric v.mileage).toQ

/-- `p11d: p11d || (get('otr') || '')` in `LexUpload.js` `onRow`: the raw
p11d string wins whenever it is truthy (nonempty), regardless of how it
parses. -/
def lexOnRowP11d (p11dRaw otrRaw : String) : String :=
  if p11dRaw ≠ "" then p11dRaw else (if otrRaw ≠ "" then otrRaw else "")

/-- Concrete record for the C7 witness: empty p11d cell, OTR 30000. -/
def c7Vehicle : VehicleRaw :=
  ⟨.str "BMW", .str "320d", .num 450, .str "", .num 30000, .num 55, .num 120,
   .null, .num 36, .num 10000⟩

/-! ## Streaming CSV decoder (`streamCsvFile` / `processText`) -/

/-- Carry-over state of the streaming CSV decoder: quote flag, in-progress
field and row, and the rows delivered to `onRow` so far. -/
structure CsvState where
  inQuotes : Bool
  field : List Char
  row : List (List Char)
  rows : List (List (List Char))
deriving DecidableEq

/-- Row termination: push the pending field; deliver the completed row via
`onRow` unless it is a single empty field
(`row.length > 1 || (row.length === 1 && row[0] !== '')`). -/
def emitRow (s : CsvState) : CsvState :=
  let r := s.row ++ [s.field]
  { inQuotes := s.inQuotes, field := [], row := [],
    rows := if 1 < r.length ∨ (r.length = 1 ∧ r.head? ≠ some []) then s.rows ++ [r] else s.rows }

/-- `processText` of `streamCsvFile`: one left-to-right pass over a decoded
chunk.  The `text[i+1]` lookahead (escaped quote, CRLF) only sees the current
chunk, exactly as in the source, where `text[i+1]` is `undefined` at the end
of a chunk. -/
def processChars (s : CsvState) : List Char → CsvState
  | [] => s
  | c :: rest =>
    if c = '\"' then
      if s.inQuotes ∧ rest.head? = some '\"' then
        processChars { s with field := s.field ++ ['\"'] } rest.tail
      else processChars { s with inQuotes := !s.inQuotes } rest
    else if c = ',' ∧ s.inQuotes = false then
      processChars { s with row := s.row ++ [s.field], field := [] } rest
    else if (c = '\n' ∨ c = '\r') ∧ s.inQuotes = false then
      processChars (emitRow s)
        (if c = '\r' ∧ rest.head? = some '\n' then rest.tail else rest)
    else processChars { s with field := s.field ++ [c] } rest
termination_by l => l.length
decreasing_by
  all_goals first
    | (simp [List.length_tail]; omega)
    | (split <;> simp [List.length_tail] <;> omega)
    | simp

/-- Initial decoder state. -/
def initCsvState : CsvState := ⟨false, [], [], []⟩

/-- End-of-input flush: `if (field.length > 0 || row.length > 0)` the pending
field is pushed and the row delivered unconditionally. -/
def flushState (s : CsvState) : List (List (List Char)) :=
  if s.field ≠ [] ∨ s.row ≠ [] then s.rows ++ [s.row ++ [s.field]] else s.rows

/-- Full streaming run: fold `processText` over the decoded chunks (the state
carries over between chunks), then flush. -/
def streamCsv (chunks : List (List Char)) : List (List (List Char)) :=
  flushState (chunks.foldl processChars initCsvState)

/-- Split a file into chunks of `n` characters (`file.slice(offset,
offset + chunkSize)`); the fuel argument makes the recursion structural. -/
def chunksOfAux (n : ℕ) : ℕ → List Char → List (List Char)
  | 0, _ => []
  | _ + 1, [] => []
  | fuel + 1, l => l.take n :: chunksOfAux n fuel (l.drop n)

/-- All chunks of size `n` of a file. -/
def chunksOf (n : ℕ) (l : List Char) : List (List Char) := chunksOfAux n l.length l

/-- The 6-character file `"a""b"` (one CSV record holding `a"b`) as an
explicit character list. -/
def c3File : List Char := ['\"', 'a', '\"', '\"', 'b', '\"']

/-! ## Top-deals finalization sort -/

/-- One entry of the finalized top-deals list as the comparator reads it:
final score `s`, insurance score `ig` (`null` when the group is unknown), and
parsed monthly payment `mp`.  (Both the `LexUpload.js` `topDeals` sort and
the netlify handler's `vehicles.sort` read exactly these three values.) -/
structure TopDeal where
  s : ℚ
  ig : Option ℚ
  mp : ℚ
deriving DecidableEq

/-- The tie-break comparator: `diff = b.score - a.score`; when `|diff| >= 1`
the sign of `diff` decides; otherwise insurance scores (`?? 0`) descending;
otherwise parsed monthly payment ascending.  Negative result puts `a`
first. -/
def cmpDeals (a b : TopDeal) : ℚ :=
  let diff := b.s - a.s
  if 1 ≤ |diff| then diff
  else
    let igB := b.ig.getD 0
    let igA := a.ig.getD 0
    if igB ≠ igA then igB - igA
    else a.mp - b.mp

/-- Insert into a sorted list according to the comparator.  The comparator is
not transitive (the within-1.0 tie window is not an equivalence), so
ECMAScript leaves `Array.prototype.sort`'s result implementation-defined;
insertion sort is the model used here — for a consistent comparator it
produces the same list the engine would. -/
def insertDeal (a : TopDeal) : List TopDeal → List TopDeal
  | [] => [a]
  | b :: l => if cmpDeals a b ≤ 0 then a :: b :: l else b :: insertDeal a l

/-- The finalization sort of the top-deals list. -/
def sortDeals (l : List TopDeal) : List TopDeal := l.foldr insertDeal []

/-- The ordering the claim asserts between any two records of the finalized
list (earlier record `a`, later record `b`): score descending when the scores
are 1.0 or more apart, otherwise insurance score descending, and monthly
payment ascending when the insurance scores are equal.  (Stated from the
claim's words, to be compared with what the code produces.) -/
def claimPairOrdered (a b : TopDeal) : Prop :=
  if 1 ≤ |a.s - b.s| then b.s ≤ a.s
  else if a.ig.getD 0 ≠ b.ig.getD 0 then b.ig.getD 0 ≤ a.ig.getD 0
  else a.mp ≤ b.mp

/-- The claim's ordering, for every (not necessarily adjacent) pair. -/
def claimOrdered (l : List TopDeal) : Prop := l.Pairwise claimPairOrdered

/-- Score 91, insurance score 0. -/
def dealA : TopDeal := ⟨91, some 0, 0⟩

/-- Score 90.3 (within 1.0 of 91), insurance score 50. -/
def dealB : TopDeal := ⟨90.3, some 50, 0⟩

/-- Score 89.6 (within 1.0 of 90.3, but 1.4 below 91), insurance score 100. -/
def dealC : TopDeal := ⟨89.6, some 100, 0⟩

/-! ## Column resolution -/

/-- `s.toUpperCase().trim()` on a header cell or synonym. -/
def normStr (s : String) : List Char := trimChars (s.data.map upChar)

/-- Normalization of one CSV header cell in `LexUpload.js`:
`(h ? String(h).toUpperCase().trim() : '')`. -/
def lexNormCell (s : String) : List Char := if s.data = [] then [] else normStr s

/-- Normalization of one XLSX header cell in the netlify `findColumn`:
`(h && typeof h === 'string') ? h.toUpperCase().trim() : ''`. -/
def p2NormCell (v : JSVal) : List Char :=
  match v with
  | .str s => if s.data = [] then [] else normStr s
  | _ => []

/-- Index of the last element satisfying `p` (JS object assignment in a
`forEach` loop: later writes win). -/
def lastIdxWith {α : Type} (p : α → Bool) : List α → Option ℕ
  | [] => none
  | a :: l =>
    match lastIdxWith p l with
    | some j => some (j + 1)
    | none => if p a then some 0 else none

/-- Index of the first element satisfying `p` (JS `findIndex`). -/
def firstIdxWith {α : Type} (p : α → Bool) : List α → Option ℕ
  | [] => none
  | a :: l => if p a then some 0 else (firstIdxWith p l).map (· + 1)

/-- `headerMap[key]` where the map was filled with
`normalized.forEach((h, i) => { if (h) map[h] = i })`. -/
def headerLookup (norm : List (List Char)) (key : List Char) : Option ℕ :=
  lastIdxWith (fun h => decide (h ≠ [] ∧ h = key)) norm

/-- Exact pass of the shared resolver: first synonym (in priority order) with
a `headerMap` hit. -/
def exactPass (norm : List (List Char)) (names : List String) : Option ℕ :=
  names.findSome? (fun n => headerLookup norm (normStr n))

/-- Fuzzy pass: first synonym for which some header cell *contains* it; the
hit is the first such cell (`normalized.findIndex(h => h.includes(key))`). -/
def fuzzyPass (norm : List (List Char)) (names : List String) : Option ℕ :=
  names.findSome? (fun n => firstIdxWith (fun h => containsSub h (normStr n)) norm)

/-- The shared exact-then-fuzzy column resolver (`findColumnIndex` in
`LexUpload.js`, `findColumn` in the enhanced netlify function) applied to the
normalized header cells. -/
def resolveColumn (norm : List (List Char)) (names : List String) : Option ℕ :=
  match exactPass norm names with
  | some i => some i
  | none => fuzzyPass norm names

/-- Cell admission of the legacy `headerMap` build:
`if (header && typeof header === 'string') headerMap[header.toUpperCase().trim()] = index`. -/
def legacyCellMatch (key : List Char) : JSVal → Bool
  | .str s => s.data ≠ [] ∧ normStr s = key
  | _ => false

/-- `headerMap[key]` of the legacy `findColumn` (last write wins). -/
def legacyLookup (headers : List JSVal) (key : List Char) : Option ℕ :=
  lastIdxWith (legacyCellMatch key) headers

/-- The oldest netlify `findColumn` (C10): per-name lookup guarded by the
*truthiness* of the stored index — `if (headerMap[name]) return headerMap[name]`
— so a stored index 0 is skipped like a missing entry; no fuzzy pass. -/
def findColumnLegacy : List JSVal → List String → Option ℕ
  | _, [] => none
  | headers, n :: ns =>
    match legacyLookup headers (normStr n) with
    | some k => if k ≠ 0 then some k else findColumnLegacy headers ns
    | none => findColumnLegacy headers ns

/-- `COLUMN_MAPPINGS.monthly_cm` of `LexUpload.js` (priority order). -/
def lexMonthlyCmNames : List String :=
  ["RENTAL", "LEASE_RENTAL", "LEASE RENTAL",
   "NET RENTAL CM", "NET RENTAL (CM)", "NET RENTAL - CM",
   "CUSTOMER MONTHLY", "CUSTOMER RENTAL", "CUSTOMER MONTHLY RENTAL",
   "NET CUSTOMER RENTAL", "DRIVER MONTHLY", "DRIVER RENTAL",
   "CUSTOMER RENTAL EX VAT", "CUSTOMER RENTAL EXC VAT", "CUSTOMER RENTAL EXCL VAT",
   "CUSTOMER MONTHLY EX VAT", "CUSTOMER MONTHLY EXC VAT", "CUSTOMER MONTHLY EXCL VAT",
   "CM EX VAT", "CM EXC VAT", "CM EXCL VAT", "NET RENTAL CM EX VAT",
   "NET RENTAL (CM) EX VAT",
   "MONTHLY RENTAL", "MONTHLY RENTAL EX VAT", "MONTHLY PAYMENT", "PAYMENT",
   "RENTAL EX VAT", "RENTAL EXC VAT", "RENTAL EXCL VAT",
   "3 + RENTAL EX VAT", "3+RENTAL"]

/-- `COLUMN_MAPPINGS.monthly_wm` of `LexUpload.js`. -/
def lexMonthlyWmNames : List String :=
  ["NET RENTAL WM", "WM", "WHOLESALE MONTHLY", "WHOLESALE RENTAL",
   "SUPPLIER RENTAL", "SUPPLIER MONTHLY", "B2B RENTAL", "WM RENTAL", "BUSINESS RENTAL"]

/-- `COLUMN_MAPPINGS.monthly_payment` of the enhanced netlify function —
`NET RENTAL CM` first. -/
def p2MonthlyPaymentNames : List String :=
  ["NET RENTAL CM", "NET RENTAL (CM)", "NET RENTAL - CM", "NET RENTAL CM EX VAT",
   "NET RENTAL (CM) EX VAT",
   "CUSTOMER MONTHLY", "CUSTOMER RENTAL", "CUSTOMER MONTHLY RENTAL",
   "NET CUSTOMER RENTAL", "DRIVER MONTHLY", "DRIVER RENTAL",
   "CUSTOMER RENTAL EX VAT", "CUSTOMER RENTAL EXC VAT", "CUSTOMER RENTAL EXCL VAT",
   "CUSTOMER MONTHLY EX VAT", "CUSTOMER MONTHLY EXC VAT", "CUSTOMER MONTHLY EXCL VAT",
   "CM EX VAT", "CM EXC VAT", "CM EXCL VAT",
   "MONTHLY RENTAL", "MONTHLY RENTAL EX VAT", "MONTHLY PAYMENT", "PAYMENT",
   "RENTAL EX VAT", "RENTAL EXC VAT", "RENTAL EXCL VAT", "3 + RENTAL EX VAT",
   "3+RENTAL", "LEASE PAYMENT", "MONTHLY COST"]

/-- A header is "rental/monthly-like" for the fallback scan:
`h.includes('RENTAL') || h.includes('MONTHLY')`. -/
def lexRentalLike (h : List Char) : Bool :=
  containsSub h (("RENTAL").data) || containsSub h (("MONTHLY").data)

/-- Customer-indicator-and-not-wholesale predicate of the fallback scan. -/
def lexPreferredPred (h : List Char) : Bool :=
  (containsSub h (("CUSTOMER").data) || containsSub h (("DRIVER").data) ||
   containsSub h (("CM").data) || containsSub h (("MONTHLY").data)) &&
  !(containsSub h (("WHOLESALE").data) || containsSub h (("WM").data) ||
    containsSub h (("SUPPLIER").data))

/-- The fallback scan for a generic rental column (`buildColumnIndices` in
`LexUpload.js`, mirrored in the netlify handler): collect the rental/monthly
candidates, prefer the first one matching the customer predicate, else take
the first candidate. -/
def lexHeuristicPick (norm : List (List Char)) : Option ℕ :=
  let candidates := norm.enum.filter (fun p => lexRentalLike p.2)
  match candidates.find? (fun p => lexPreferredPred p.2) with
  | some p => some p.1
  | none => candidates.head?.map (fun p => p.1)

/-- The full `monthly_cm` resolution of `buildColumnIndices`: synonym
resolution first; the heuristic runs only when *neither* `monthly_cm` nor
`monthly_wm` resolved. -/
def lexMonthlyCmIndex (headers : List String) : Option ℕ :=
  let norm := headers.map lexNormCell
  match resolveColumn norm lexMonthlyCmNames with
  | some i => some i
  | none =>
    match resolveColumn norm lexMonthlyWmNames with
    | some _ => none
    | none => lexHeuristicPick norm

/-- Header row with a decoy cell that is exactly `RENTAL` in front of the
CM/WM pair. -/
def c4Headers : List String := ["RENTAL", "NET RENTAL CM", "NET RENTAL WM"]

/-! ## Header-row detection -/

/-- `COLUMN_MAPPINGS` key lists of the enhanced netlify function. -/
def p2ManufacturerNames : List String := ["MANUFACTURER", "MAKE", "BRAND"]

def p2ModelNames : List String :=
  ["VEHICLE DESCRIPTION", "MODEL", "DESCRIPTION", "VEHICLE", "DERIVATIVE"]

def p2P11dNames : List String := ["P11D", "MSRP", "LIST PRICE", "RRP", "PRICE", "LIST"]

def p2OtrNames : List String := ["OTR PRICE", "OTR", "ON THE ROAD", "TOTAL PRICE"]

def p2MpgNames : List String := ["MPG", "FUEL ECONOMY", "MILES PER GALLON", "MPG COMBINED"]

def p2Co2Names : List String := ["CO2", "EMISSIONS", "CO2 EMISSIONS", "CARBON"]

def p2InsuranceNames : List String := ["INSURANCE GROUP", "INSURANCE", "INS GRP"]

def p2CapIdNames : List String := ["CAP ID", "CAP", "CAPID", "CAP CODE"]

def p2TermNames : List String := ["TERM", "MONTHS", "CONTRACT LENGTH"]

def p2MileageNames : List String :=
  ["MILEAGE", "ANNUAL MILEAGE", "ANNUAL_MILEAGE", "MILES", "MILEAGE ALLOWANCE"]

def p2UpfrontNames : List String := ["UP FRONT", "UPFRONT", "INITIAL PAYMENT", "DEPOSIT"]

/-- All 12 `COLUMN_MAPPINGS` entries, in source order. -/
def p2AllNames : List (List String) :=
  [p2ManufacturerNames, p2ModelNames, p2MonthlyPaymentNames, p2P11dNames, p2OtrNames,
   p2MpgNames, p2Co2Names, p2InsuranceNames, p2CapIdNames, p2TermNames, p2MileageNames,
   p2UpfrontNames]

/-- `findColumn` of the enhanced netlify function on a candidate row. -/
def p2FindColumn (row : List JSVal) (names : List String) : Option ℕ :=
  resolveColumn (row.map p2NormCell) names

/-- `headerScore`: how many of the 12 canonical fields resolved on this row. -/
def p2HeaderScore (row : List JSVal) : ℕ :=
  (p2AllNames.filter (fun ns => (p2FindColumn row ns).isSome)).length

/-- Acceptance of one candidate row in the netlify detection loop: the row is
skipped when shorter than 5 cells, and accepted when at least 5 fields
resolve including both term and mileage. -/
def p2Accept (row : List JSVal) : Bool :=
  5 ≤ row.length ∧ 5 ≤ p2HeaderScore row ∧
  (p2FindColumn row p2TermNames).isSome ∧ (p2FindColumn row p2MileageNames).isSome

/-- The netlify header-detection loop: the first of the first 10 rows that is
accepted. -/
def p2DetectHeader (rows : List (List JSVal)) : Option ℕ :=
  firstIdxWith p2Accept (rows.take 10)

/-- Resolved column indices of the netlify handler (only the fields the
record build reads). -/
structure P2Cols where
  manufacturer : Option ℕ
  model : Option ℕ
  monthly_payment : Option ℕ
  p11d : Option ℕ
  otr_price : Option ℕ
  mpg : Option ℕ
  co2 : Option ℕ
  insurance_group : Option ℕ
  term : Option ℕ
  mileage : Option ℕ
deriving DecidableEq

/-- Resolve every field against the accepted header row. -/
def p2ResolveCols (row : List JSVal) : P2Cols :=
  ⟨p2FindColumn row p2ManufacturerNames, p2FindColumn row p2ModelNames,
   p2FindColumn row p2MonthlyPaymentNames, p2FindColumn row p2P11dNames,
   p2FindColumn row p2OtrNames, p2FindColumn row p2MpgNames,
   p2FindColumn row p2Co2Names, p2FindColumn row p2InsuranceNames,
   p2FindColumn row p2TermNames, p2FindColumn row p2MileageNames⟩

/-- `row[columnIndices.key] || default` (undefined index or falsy cell falls
back to the default). -/
def rowGet (row : List JSVal) (idx : Option ℕ) (dflt : JSVal) : JSVal :=
  match idx with
  | some i => if jsTruthy (row.getD i .null) then row.getD i .null else dflt
  | none => dflt

/-- Assemble one `VehicleRaw` from a data row (string defaults `''`, numeric
defaults `0`, as in the source object literal). -/
def p2BuildVehicle (cols : P2Cols) (row : List JSVal) : VehicleRaw :=
  ⟨rowGet row cols.manufacturer (.str ""), rowGet row cols.model (.str ""),
   rowGet row cols.monthly_payment (.num 0), rowGet row cols.p11d (.num 0),
   rowGet row cols.otr_price (.num 0), rowGet row cols.mpg (.num 0),
   rowGet row cols.co2 (.num 0), rowGet row cols.insurance_group (.str ""),
   rowGet row cols.term (.str ""), rowGet row cols.mileage (.str "")⟩

/-- `if (!vehicle.manufacturer && !vehicle.model && !vehicle.monthly_payment)
continue` — a record survives when any of the three is truthy. -/
def p2KeepVehicle (v : VehicleRaw) : Bool :=
  jsTruthy v.manufacturer || jsTruthy v.model || jsTruthy v.monthly_payment

/-- Records built from the rows *after* the accepted header row: skip empty
rows, build, drop completely-empty records, apply the OTR proxy. -/
def p2VehiclesAfterHeader (rows : List (List JSVal)) (h : ℕ) : List VehicleRaw :=
  ((((rows.drop (h + 1)).filter (fun r => r ≠ [])).map
    (p2BuildVehicle (p2ResolveCols (rows.getD h [])))).filter p2KeepVehicle).map
      applyOtrProxy

/-- Detection plus record extraction (the header-less static-fallback path of
the handler is not modelled; no claim depends on it). -/
def p2Process (rows : List (List JSVal)) : Option (ℕ × List VehicleRaw) :=
  match p2DetectHeader rows with
  | some h => some (h, p2VehiclesAfterHeader rows h)
  | none => none

/-- `LexUpload.js` column resolution of one candidate row. -/
def lexFindColumn (row : List String) (names : List String) : Option ℕ :=
  resolveColumn (row.map lexNormCell) names

/-- Remaining essential-key synonym lists of `LexUpload.js`. -/
def lexManufacturerNames : List String := ["MANUFACTURER", "MAKE", "BRAND"]

def lexModelNames : List String :=
  ["VARIANT", "VEHICLE DESCRIPTION", "DERIVATIVE", "MODEL", "DESCRIPTION", "VEHICLE", "GRADE"]

def lexTermNames : List String :=
  ["TERM", "MONTHS", "CONTRACT LENGTH", "TERM (MONTHS)", "TERM (MTHS)"]

def lexMileageNames : List String :=
  ["ANNUAL_MILEAGE", "ANNUAL MILEAGE", "MILEAGE", "MILEAGE ALLOWANCE",
   "MILES PER ANNUM", "P.A. MILEAGE"]

def lexP11dNames : List String :=
  ["P11D", "P11D PRICE", "P11D VALUE", "LIST PRICE (P11D)", "LIST PRICE", "RRP", "MRP"]

/-- The resolved `essentialKeys` entries of the `LexUpload.js` header
detection (`manufacturer, model, monthly_cm, monthly_wm, p11d, term,
mileage`), with the heuristic already folded into `monthly_cm` exactly as
`buildColumnIndices` does. -/
def lexEssentialIdx (row : List String) : List (Option ℕ) :=
  [lexFindColumn row lexManufacturerNames, lexFindColumn row lexModelNames,
   lexMonthlyCmIndex row, lexFindColumn row lexMonthlyWmNames,
   lexFindColumn row lexP11dNames, lexFindColumn row lexTermNames,
   lexFindColumn row lexMileageNames]

/-- `matches`: count of resolved essential keys. -/
def lexEssentialMatches (row : List String) : ℕ :=
  (lexEssentialIdx row).countP (fun o => o.isSome)

/-- Acceptance in `LexUpload.js`:
`matches >= 3 || (candidateIdx.manufacturer !== undefined && candidateIdx.model !== undefined)`. -/
def lexHeaderAccept (row : List String) : Bool :=
  3 ≤ lexEssentialMatches row ∨
  ((lexFindColumn row lexManufacturerNames).isSome ∧
   (lexFindColumn row lexModelNames).isSome)

/-- A candidate row resolving only manufacturer and model. -/
def c5LexRow : List String := ["MAKE", "MODEL", "AAA", "BBB", "CCC"]

/-- Two junk rows (a one-cell banner and an empty row), the true header at
index 2, one data row. -/
def c5Rows : List (List JSVal) :=
  [[.str "Lex Ratebook Export"],
   [],
   [.str "MANUFACTURER", .str "MODEL", .str "MONTHLY PAYMENT", .str "P11D",
    .str "TERM", .str "MILEAGE", .str "MPG"],
   [.str "BMW", .str "320d", .str "450", .str "35000", .str "36", .str "10000",
    .str "55.4"]]

/-- The single record the junk-prefixed file should produce. -/
def c5Vehicle : VehicleRaw :=
  ⟨.str "BMW", .str "320d", .str "450", .str "35000", .num 0, .str "55.4",
   .num 0, .str "", .str "36", .str "10000"⟩

/-! ## Component bounds -/

theorem costEfficiencyScore_le_100 (m p t : ℚ) : costEfficiencyScore m p t ≤ 100 := by
  simp only [costEfficiencyScore]
  split_ifs <;> norm_num

theorem lexMileageScore_le_100 (v : LexV) : lexMileageScore v ≤ 100 :=
  min_le_left _ _

theorem fuelScoreOf_le_100 (mpg : ℚ) : fuelScoreOf mpg ≤ 100 := by
  unfold fuelScoreOf
  split_ifs
  · exact min_le_left _ _
  · norm_num

theorem emissionsScoreOf_le_100 (co2 : ℚ) : emissionsScoreOf co2 ≤ 100 := by
  unfold emissionsScoreOf
  split_ifs with h
  · exact max_le (by norm_num) (by linarith)
  · norm_num

theorem lexOperatingScore_le_100 (v : LexV) (a : Assumptions) :
    lexOperatingScore v a ≤ 100 := by
  simp only [lexOperatingScore]
  split_ifs <;> norm_num

/-- C1: The cost-efficiency sub-score is a piecewise-constant function of the
ratio `monthly * term / p11d * 100` with inclusive upper band boundaries: for
positive monthly and p11d, ratio ≤ 30 scores 100, ≤ 40 scores 90, ≤ 50 scores
75, ≤ 60 scores 60, ≤ 70 scores 40, ≤ 80 scores 20, and above 80 scores 0. -/
theorem C1_cost_efficiency_bands (m p t : ℚ) (hm : 0 < m) (hp : 0 < p) :
    (m * t / p * 100 ≤ 30 → costEfficiencyScore m p t = 100) ∧
    (30 < m * t / p * 100 ∧ m * t / p * 100 ≤ 40 → costEfficiencyScore m p t = 90) ∧
    (40 < m * t / p * 100 ∧ m * t / p * 100 ≤ 50 → costEfficiencyScore m p t = 75) ∧
    (50 < m * t / p * 100 ∧ m * t / p * 100 ≤ 60 → costEfficiencyScore m p t = 60) ∧
    (60 < m * t / p * 100 ∧ m * t / p * 100 ≤ 70 → costEfficiencyScore m p t = 40) ∧
    (70 < m * t / p * 100 ∧ m * t / p * 100 ≤ 80 → costEfficiencyScore m p t = 20) ∧
    (80 < m * t / p * 100 → costEfficiencyScore m p t = 0) := by
  have hg : ¬(p = 0 ∨ m = 0) := by
    push_neg
    exact ⟨ne_of_gt hp, ne_of_gt hm⟩
  unfold costEfficiencyScore
  simp only [if_pos hp, if_neg hg]
  refine ⟨fun h => ?_, fun h => ?_, fun h => ?_, fun h => ?_, fun h => ?_, fun h => ?_,
    fun h => ?_⟩ <;>
    split_ifs <;> first | rfl | (exfalso; rcases h with ⟨h1, h2⟩ | h1 <;> linarith) |
      (exfalso; linarith [h])

/-- Witness for C1 at the boundary ratios 30 and 80 exactly. -/
theorem C1_witness :
    costEfficiencyScore 10 1000 30 = 100 ∧ costEfficiencyScore 10 1000 80 = 20 :=
  ⟨(C1_cost_efficiency_bands 10 1000 30 (by norm_num) (by norm_num)).1 (by norm_num),
   (C1_cost_efficiency_bands 10 1000 80 (by norm_num) (by norm_num)).2.2.2.2.2.1
     (by norm_num)⟩

/-- C8 (amended): in the extended mode, when the parsed electric range is 0
the EV term is simply omitted without renormalizing; the remaining weights
0.5 + 0.2 + 0.15 + 0.1 + 0.05 sum to 1.0 (not 0.95), so the non-EV base score
is bounded by 100 (not 95); a positive electric range adds the EV term with
weight 0.05 (total weight 1.05). -/
theorem C8_ev_weight_not_renormalized :
    (∀ (v : LexV) (a : Assumptions), v.electricRange = 0 →
      lexBaseScore v a =
        costEfficiencyScore v.monthly v.p11d (lexTerm v) * 0.5 + lexMileageScore v * 0.15 +
          lexFuelScore v * 0.05 + lexEmissionsScore v * 0.1 + lexOperatingScore v a * 0.2 ∧
      lexBaseScore v a ≤ 100) ∧
    (∀ (v : LexV) (a : Assumptions), 0 < v.electricRange →
      lexBaseScore v a =
        costEfficiencyScore v.monthly v.p11d (lexTerm v) * 0.5 + lexMileageScore v * 0.15 +
          lexFuelScore v * 0.05 + lexEmissionsScore v * 0.1 + lexOperatingScore v a * 0.2 +
          ((lexEvRangeScore v).getD 0) * 0.05) := by
  constructor
  · intro v a h
    have heq : lexBaseScore v a =
        costEfficiencyScore v.monthly v.p11d (lexTerm v) * 0.5 + lexMileageScore v * 0.15 +
          lexFuelScore v * 0.05 + lexEmissionsScore v * 0.1 + lexOperatingScore v a * 0.2 := by
      unfold lexBaseScore
      rw [if_neg (by simp [h]), add_zero]
    refine ⟨heq, ?_⟩
    rw [heq]
    have h1 := costEfficiencyScore_le_100 v.monthly v.p11d (lexTerm v)
    have h2 := lexMileageScore_le_100 v
    have h3 := fuelScoreOf_le_100 (lexAdjustedMpg v)
    have h4 := emissionsScoreOf_le_100 v.co2
    have h5 := lexOperatingScore_le_100 v a
    unfold lexFuelScore lexEmissionsScore
    linarith
  · intro v a h
    unfold lexBaseScore
    rw [if_pos (ne_of_gt h)]

/-- C8 counterexample: a concrete non-EV record (electric range parses to 0)
whose extended base score is 99.95, exceeding the claimed maximum of 95. -/
theorem C8_counterexample : 95 < lexBaseScore c8Vehicle lexAssumptions := by
  have hhyb : lexIsHybrid c8Vehicle = false := by decide
  have helec : containsSub (lexFuelTypeLower c8Vehicle) ("electric".data) = false := by decide
  have hdiesel : containsSub (lexFuelTypeLower c8Vehicle) ("diesel".data) = false := by decide
  simp only [c8Vehicle] at hhyb helec hdiesel
  simp only [lexBaseScore, lexMileageScore, lexFuelScore, lexEmissionsScore, lexOperatingScore,
    lexCostPerMile, lexMilesPerKwh, lexAdjustedMpg, lexTerm, lexMileage, fuelScoreOf,
    emissionsScoreOf, costEfficiencyScore, lexEvRangeScore, c8Vehicle, lexAssumptions,
    hhyb, helec, hdiesel]
  norm_num

/-- Witness for C8 at concrete non-EV and EV records. -/
theorem C8_witness :
    lexBaseScore c8Vehicle lexAssumptions ≤ 100 ∧
    lexBaseScore c8VehicleEv lexAssumptions =
      costEfficiencyScore c8VehicleEv.monthly c8VehicleEv.p11d (lexTerm c8VehicleEv) * 0.5 +
        lexMileageScore c8VehicleEv * 0.15 + lexFuelScore c8VehicleEv * 0.05 +
        lexEmissionsScore c8VehicleEv * 0.1 + lexOperatingScore c8VehicleEv lexAssumptions * 0.2 +
        ((lexEvRangeScore c8VehicleEv).getD 0) * 0.05 :=
  ⟨(C8_ev_weight_not_renormalized.1 c8Vehicle lexAssumptions rfl).2,
   C8_ev_weight_not_renormalized.2 c8VehicleEv lexAssumptions (by norm_num [c8VehicleEv])⟩

/-! ## Value parser (C6) and OTR proxy (C7) -/

theorem cleanNumeric_of_trim_nil (l : List Char) (h : trimChars l = []) :
    cleanNumeric l = [] := by
  have hX : ∀ c ∈ (dropWs l.reverse).reverse, isWsChar c = true := by
    have := List.dropWhile_eq_nil_iff.1 h
    simpa [trimChars, dropWs] using this
  have hall : ∀ c ∈ l, isWsChar c = true := by
    intro c hc
    have hrev : c ∈ l.reverse := List.mem_reverse.2 hc
    rw [← List.takeWhile_append_dropWhile (p := isWsChar) (l := l.reverse)] at hrev
    rcases List.mem_append.1 hrev with h1 | h2
    · exact List.mem_takeWhile_imp h1
    · exact hX c (List.mem_reverse.2 h2)
  have : ∀ c ∈ l, ¬((!isStrippedChar c) = true) := by
    intro c hc
    simp [isStrippedChar, hall c hc]
  simpa [cleanNumeric, List.filter_eq_nil_iff] using this

/-- C6 (amended): `parseNumeric` is total; a number argument is returned
unchanged; a missing value or empty/whitespace-only string returns 0; a
string is stripped of currency symbols, commas, whitespace and percent signs
and parsed as a float; a `NaN` parse returns exactly 0 — but a parse result
of ±Infinity (e.g. the string `Infinity`) is returned as is, not replaced by
0, because the code tests `isNaN`, not finiteness.  Examples: `£12,345.67 `
parses to 12345.67 and `45%` to 45; garbage parses to 0. -/
theorem C6_parse_numeric_total (s : String) (q : ℚ) :
    (∀ x : ℚ, parseNumeric (.num x) = .fin x) ∧
    parseNumeric .null = .fin 0 ∧
    (trimChars s.data = [] → parseNumeric (.str s) = .fin 0) ∧
    (jsParseFloat (cleanNumeric s.data) = .nan → parseNumeric (.str s) = .fin 0) ∧
    (jsParseFloat (cleanNumeric s.data) = .val q → parseNumeric (.str s) = .fin q) ∧
    parseNumeric (.str "£12,345.67 ") = .fin (1234567/100) ∧
    parseNumeric (.str "45%") = .fin 45 ∧
    parseNumeric (.str "n/a") = .fin 0 := by
  refine ⟨fun x => rfl, rfl, ?_, ?_, ?_, ?_, ?_, ?_⟩
  · intro h
    simp [parseNumeric, h]
  · intro h
    by_cases he : s.data = [] ∨ trimChars s.data = []
    · simp [parseNumeric, he]
    · simp [parseNumeric, he, h]
  · intro h
    by_cases he : s.data = [] ∨ trimChars s.data = []
    · exfalso
      have hc : cleanNumeric s.data = [] := by
        rcases he with he | he
        · simp [cleanNumeric, he]
        · exact cleanNumeric_of_trim_nil _ he
      rw [hc] at h
      simp [jsParseFloat, dropWs, parseUnsigned, startsWithList] at h
    · simp [parseNumeric, he, h]
  · simp +decide [parseNumeric, cleanNumeric, jsParseFloat, parseUnsigned, parseExponent,
      dropWs, digitsToNat, digitVal, fracToQ]
    norm_num
  · simp +decide [parseNumeric, cleanNumeric, jsParseFloat, parseUnsigned, parseExponent,
      dropWs, digitsToNat, digitVal, fracToQ]
  · decide

/-- Witness for C6: the string `" 42 "` has a nonempty trim, cleans to `42`,
and parses to 42. -/
theorem C6_witness : parseNumeric (.str " 42 ") = .fin 42 := by
  have h := (C6_parse_numeric_total " 42 " 42).2.2.2.2.1
  refine h ?_
  simp +decide [cleanNumeric, jsParseFloat, parseUnsigned, parseExponent, dropWs,
    digitsToNat, digitVal, fracToQ]

/-- C6 counterexample: the input string `Infinity` has a non-finite parse
result, yet `parseNumeric` returns Infinity rather than exactly 0 (the code
only checks `isNaN`). -/
theorem C6_counterexample :
    parseNumeric (.str "Infinity") = .posInf ∧
    JSNum.isFinite (parseNumeric (.str "Infinity")) = false ∧
    parseNumeric (.str "Infinity") ≠ .fin 0 := by
  refine ⟨by decide, by decide, by decide⟩

/-- C7 (amended): in the netlify handler, whenever p11d parses to 0 and
otr_price parses to a positive (finite) number, the OTR fallback overwrites
the record's p11d with the raw otr_price before scoring, so `calculateScore`
computes its cost-efficiency ratio against the OTR value.  (The client-side
`LexUpload.js` path instead keys the substitution on the *raw string* being
falsy, so a p11d cell of `"0"` blocks the substitution there — see the
counterexample.) -/
theorem C7_otr_proxy_substitution (v : VehicleRaw) (q : ℚ)
    (h0 : parseNumeric v.p11d = .fin 0)
    (hq : parseNumeric v.otr_price = .fin q) (hpos : 0 < q) :
    (applyOtrProxy v).p11d = v.otr_price ∧
    (parseNumeric (applyOtrProxy v).p11d).toQ = q ∧
    calculateScore (applyOtrProxy v) =
      calculateScoreQ (parseNumeric v.monthly_payment).toQ q
        (parseNumeric v.mpg).toQ (parseNumeric v.co2).toQ
        (parseNumeric v.term).toQ (parseNumeric v.mileage).toQ := by
  have hcond : parseNumeric v.p11d = .fin 0 ∧ (parseNumeric v.otr_price).posB := by
    refine ⟨h0, ?_⟩
    rw [hq]
    simpa [JSNum.posB] using hpos
  have hsub : applyOtrProxy v = { v with p11d := v.otr_price } := by
    unfold applyOtrProxy
    rw [if_pos hcond]
  refine ⟨by rw [hsub], ?_, ?_⟩
  · rw [hsub]
    simp [hq, JSNum.toQ]
  · rw [hsub]
    unfold calculateScore
    simp [hq, JSNum.toQ]

/-- Witness for C7: a record with an empty p11d cell and OTR 30000 is scored
against 30000. -/
theorem C7_witness :
    (applyOtrProxy c7Vehicle).p11d = JSVal.num 30000 ∧
    (parseNumeric (applyOtrProxy c7Vehicle).p11d).toQ = 30000 :=
  ⟨(C7_otr_proxy_substitution c7Vehicle 30000 (by decide) rfl (by norm_num)).1,
   (C7_otr_proxy_substitution c7Vehicle 30000 (by decide) rfl (by norm_num)).2.1⟩

/-- C7 counterexample: in `LexUpload.js` the substitution is keyed on the raw
p11d string, so a record whose p11d cell is the string `"0"` (which parses to
0) with a positive OTR of 30000 keeps p11d = `"0"` and gets a zero
cost-efficiency score — the ratio is *not* computed against otr_price. -/
theorem C7_counterexample :
    parseNumber (.str "0") = .fin 0 ∧
    (parseNumber (.str "30000")).posB = true ∧
    lexOnRowP11d "0" "30000" = "0" ∧
    costEfficiencyScore (parseNumber (.str "450")).toQ
      (parseNumber (.str (lexOnRowP11d "0" "30000"))).toQ 36 = 0 := by
  have h0 : parseNumber (.str "0") = .fin 0 := by
    simp +decide [parseNumber, jsParseFloat, parseUnsigned, parseExponent, dropWs,
      digitsToNat, digitVal, fracToQ]
  have hp : lexOnRowP11d "0" "30000" = "0" := by decide
  refine ⟨h0, ?_, hp, ?_⟩
  · have : parseNumber (.str "30000") = .fin 30000 := by
      simp +decide [parseNumber, jsParseFloat, parseUnsigned, parseExponent, dropWs,
        digitsToNat, digitVal, fracToQ]
    rw [this]
    simp [JSNum.posB]
  · rw [hp, h0]
    simp [JSNum.toQ, costEfficiencyScore]

/-! ## Streamer theorems (C3, C9) -/

theorem emitRow_rows_mem (s : CsvState) (r : List (List Char))
    (hr : r ∈ (emitRow s).rows) :
    r ∈ s.rows ∨ 1 < r.length ∨ (r.length = 1 ∧ r.head? ≠ some []) := by
  simp only [emitRow] at hr
  split at hr
  · rcases List.mem_append.1 hr with h | h
    · exact Or.inl h
    · rename_i hk
      rcases List.mem_singleton.1 h with rfl
      exact Or.inr hk
  · exact Or.inl hr

theorem processChars_rows_mem (s : CsvState) (l : List Char) :
    ∀ r ∈ (processChars s l).rows,
      r ∈ s.rows ∨ 1 < r.length ∨ (r.length = 1 ∧ r.head? ≠ some []) := by
  induction s, l using processChars.induct with
  | case1 s =>
    rw [processChars.eq_def]
    exact fun r hr => Or.inl hr
  | case2 s rest h ih =>
    intro r hr
    rw [processChars.eq_def] at hr
    dsimp only at hr
    rw [if_pos rfl, if_pos h] at hr
    exact (ih r hr).elim Or.inl Or.inr
  | case3 s rest h ih =>
    intro r hr
    rw [processChars.eq_def] at hr
    dsimp only at hr
    rw [if_pos rfl, if_neg h] at hr
    exact (ih r hr).elim Or.inl Or.inr
  | case4 s c rest h1 h2 ih =>
    intro r hr
    rw [processChars.eq_def] at hr
    dsimp only at hr
    rw [if_neg h1, if_pos h2] at hr
    exact (ih r hr).elim Or.inl Or.inr
  | case5 s c rest h1 h2 h3 ih =>
    intro r hr
    rw [processChars.eq_def] at hr
    dsimp only at hr
    rw [if_neg h1, if_neg h2, if_pos h3] at hr
    simp only [dite_eq_ite] at ih
    exact (ih r hr).elim (emitRow_rows_mem s r) Or.inr
  | case6 s c rest h1 h2 h3 ih =>
    intro r hr
    rw [processChars.eq_def] at hr
    dsimp only at hr
    rw [if_neg h1, if_neg h2, if_neg h3] at hr
    exact (ih r hr).elim Or.inl Or.inr

/-- C9: within one decoded chunk — a double-quote toggles quoted mode unless
it is two consecutive quotes inside quoted mode, which append one literal
quote; a comma outside quotes ends the field; a CR immediately followed by LF
outside quotes is consumed as a single row terminator (no extra empty field
or row); a row consisting of a single empty field is never delivered to
`onRow`; and at end of input any non-empty pending field or row is flushed as
a final row. -/
theorem C9_streamer_character_rules :
    (∀ (s : CsvState) (rest : List Char), s.inQuotes = true →
      processChars s ('\"' :: '\"' :: rest) =
        processChars { s with field := s.field ++ ['\"'] } rest) ∧
    (∀ (s : CsvState) (rest : List Char), s.inQuotes = false →
      processChars s ('\"' :: rest) = processChars { s with inQuotes := true } rest) ∧
    (∀ (s : CsvState) (rest : List Char), s.inQuotes = true → rest.head? ≠ some '\"' →
      processChars s ('\"' :: rest) = processChars { s with inQuotes := false } rest) ∧
    (∀ (s : CsvState) (rest : List Char), s.inQuotes = false →
      processChars s (',' :: rest) =
        processChars { s with row := s.row ++ [s.field], field := [] } rest) ∧
    (∀ (s : CsvState) (rest : List Char), s.inQuotes = false →
      processChars s ('\r' :: '\n' :: rest) = processChars (emitRow s) rest) ∧
    (∀ (s : CsvState) (l : List Char), [[]] ∉ s.rows → [[]] ∉ (processChars s l).rows) ∧
    (∀ s : CsvState, s.field ≠ [] ∨ s.row ≠ [] →
      flushState s = s.rows ++ [s.row ++ [s.field]]) := by
  refine ⟨?_, ?_, ?_, ?_, ?_, ?_, ?_⟩
  · intro s rest h
    rw [processChars.eq_def]
    dsimp only
    rw [if_pos rfl, if_pos (by simp [h])]
    rfl
  · intro s rest h
    rw [processChars.eq_def]
    dsimp only
    rw [if_pos rfl, if_neg (by simp [h])]
    simp [h]
  · intro s rest h hq
    rw [processChars.eq_def]
    dsimp only
    rw [if_pos rfl, if_neg (by simp [hq])]
    simp [h]
  · intro s rest h
    rw [processChars.eq_def]
    dsimp only
    rw [if_neg (by decide), if_pos (by simp [h])]
  · intro s rest h
    rw [processChars.eq_def]
    dsimp only
    rw [if_neg (by decide), if_neg (by simp), if_pos (by simp [h])]
    simp
  · intro s l h hmem
    rcases processChars_rows_mem s l _ hmem with h1 | h1 | h1
    · exact h h1
    · simp at h1
    · simp at h1
  · intro s h
    unfold flushState
    rw [if_pos h]

/-- Witness for C9 at concrete states and chunks. -/
theorem C9_witness :
    processChars ⟨true, ['a'], [], []⟩ ['\"', '\"'] =
      processChars ⟨true, ['a', '\"'], [], []⟩ [] ∧
    processChars ⟨false, [], [], []⟩ ['\"'] = processChars ⟨true, [], [], []⟩ [] ∧
    processChars ⟨true, ['a'], [], []⟩ ['\"', 'x'] =
      processChars ⟨false, ['a'], [], []⟩ ['x'] ∧
    processChars ⟨false, ['a'], [], []⟩ [','] =
      processChars ⟨false, [], [['a']], []⟩ [] ∧
    processChars ⟨false, ['a'], [], []⟩ ['\r', '\n'] =
      processChars (emitRow ⟨false, ['a'], [], []⟩) [] ∧
    [[]] ∉ (processChars initCsvState ['x', '\n', '\n']).rows ∧
    flushState ⟨false, ['b'], [], []⟩ = [[['b']]] := by
  refine ⟨C9_streamer_character_rules.1 ⟨true, ['a'], [], []⟩ [] rfl,
    C9_streamer_character_rules.2.1 ⟨false, [], [], []⟩ [] rfl,
    C9_streamer_character_rules.2.2.1 ⟨true, ['a'], [], []⟩ ['x'] rfl (by decide),
    C9_streamer_character_rules.2.2.2.1 ⟨false, ['a'], [], []⟩ [] rfl,
    C9_streamer_character_rules.2.2.2.2.1 ⟨false, ['a'], [], []⟩ [] rfl,
    C9_streamer_character_rules.2.2.2.2.2.1 initCsvState ['x', '\n', '\n'] (by simp [initCsvState]),
    ?_⟩
  have h := C9_streamer_character_rules.2.2.2.2.2.2 ⟨false, ['b'], [], []⟩ (by simp)
  simpa using h

/-- C3 refuted (code bug): the escaped-quote lookahead `text[i+1]` cannot see
across a chunk boundary, so the 6-character file `"a""b"` decodes to the row
`[a"b]` in one 6-byte chunk but to `[ab]` in two 3-byte chunks — the quote
character is lost.  The carry-over design (`buffer`, `inQuotes`, `field`,
`row` persist across chunks) shows chunk-size invariance was intended. -/
theorem C3_chunk_boundary_divergence :
    streamCsv (chunksOf 6 c3File) = [[['a', '\"', 'b']]] ∧
    streamCsv (chunksOf 3 c3File) = [[['a', 'b']]] ∧
    streamCsv (chunksOf 3 c3File) ≠ streamCsv (chunksOf 6 c3File) := by
  refine ⟨?_, ?_, ?_⟩
  · simp +decide [streamCsv, chunksOf, chunksOfAux, c3File, processChars.eq_def,
      initCsvState, emitRow, flushState]
  · simp +decide [streamCsv, chunksOf, chunksOfAux, c3File, processChars.eq_def,
      initCsvState, emitRow, flushState]
  · simp +decide [streamCsv, chunksOf, chunksOfAux, c3File, processChars.eq_def,
      initCsvState, emitRow, flushState]

/-! ## Top-K finalization order (C2) -/

theorem cmpDeals_antisymm (a b : TopDeal) : cmpDeals b a = -cmpDeals a b := by
  simp only [cmpDeals]
  rw [abs_sub_comm]
  split_ifs <;> try ring
  all_goals rename_i h1 h2 h3
  all_goals first
    | exact absurd (Ne.symm h2) h3
    | exact absurd (Ne.symm h3) h2

theorem cmpDeals_total (a b : TopDeal) (h : ¬ cmpDeals a b ≤ 0) : cmpDeals b a ≤ 0 := by
  rw [cmpDeals_antisymm]
  linarith [not_le.1 h]

theorem insertDeal_head? (a : TopDeal) (l : List TopDeal) :
    (insertDeal a l).head? = some a ∨ (insertDeal a l).head? = l.head? := by
  cases l with
  | nil => exact Or.inl rfl
  | cons b l =>
    rw [insertDeal]
    split_ifs
    · exact Or.inl rfl
    · exact Or.inr rfl

theorem chain'_insertDeal (a : TopDeal) (l : List TopDeal)
    (h : l.Chain' (fun x y => cmpDeals x y ≤ 0)) :
    (insertDeal a l).Chain' (fun x y => cmpDeals x y ≤ 0) := by
  induction l with
  | nil => simp [insertDeal]
  | cons b l ih =>
    rw [insertDeal]
    split_ifs with hab
    · exact h.cons hab
    · rcases List.chain'_cons'.1 h with ⟨hbh, hl⟩
      refine List.chain'_cons'.2 ⟨?_, ih hl⟩
      intro y hy
      rcases insertDeal_head? a l with hh | hh
      · rw [hh] at hy
        simp only [Option.mem_def, Option.some_inj] at hy
        rw [← hy]
        exact cmpDeals_total a b hab
      · rw [hh] at hy
        exact hbh y hy

/-- C2 (amended): every pair of *adjacent* records in the finalized list is
ordered by the comparator — score descending when the scores are 1.0 or more
apart, otherwise insurance score descending, then parsed monthly payment
ascending.  Because the within-1.0 tie window is not transitive, the ordering
need not hold between non-adjacent records (see the counterexample, where no
ordering of the three records satisfies the claim's pairwise version). -/
theorem C2_adjacent_pairs_ordered (l : List TopDeal) :
    (sortDeals l).Chain' (fun a b => cmpDeals a b ≤ 0) := by
  unfold sortDeals
  induction l with
  | nil => simp
  | cons a l ih =>
    simp only [List.foldr_cons]
    exact chain'_insertDeal a _ ih

/-- C2 counterexample: with scores 91 / 90.3 / 89.6 and insurance scores
0 / 50 / 100, the pairs (91, 90.3) and (90.3, 89.6) are "tied" (within 1.0)
and demand insurance-descending order, while the pair (91, 89.6) is 1.4 apart
and demands score-descending order — a cycle.  The finalized list the code
produces violates the claimed pairwise ordering (the 91-score record precedes
the 90.3-score record despite a lower insurance score), and indeed every
permutation of the three records violates it. -/
theorem C2_counterexample :
    sortDeals [dealA, dealB, dealC] = [dealA, dealC, dealB] ∧
    ¬ claimOrdered (sortDeals [dealA, dealB, dealC]) ∧
    ¬ claimOrdered [dealA, dealB, dealC] ∧ ¬ claimOrdered [dealA, dealC, dealB] ∧
    ¬ claimOrdered [dealB, dealA, dealC] ∧ ¬ claimOrdered [dealB, dealC, dealA] ∧
    ¬ claimOrdered [dealC, dealA, dealB] ∧ ¬ claimOrdered [dealC, dealB, dealA] := by
  have hsort : sortDeals [dealA, dealB, dealC] = [dealA, dealC, dealB] := by
    norm_num [sortDeals, insertDeal, cmpDeals, dealA, dealB, dealC, abs_eq_max_neg, max_def]
  refine ⟨hsort, ?_, ?_, ?_, ?_, ?_, ?_, ?_⟩
  all_goals try rw [hsort]
  all_goals norm_num [claimOrdered, claimPairOrdered, dealA, dealB, dealC, List.pairwise_cons,
    abs_eq_max_neg, max_def]

/-! ## Column resolution lemmas (C10, C4) -/

theorem lastIdxWith_spec {α : Type} (p : α → Bool) (l : List α) (i : ℕ)
    (h : lastIdxWith p l = some i) : ∃ a, l[i]? = some a ∧ p a = true := by
  induction l generalizing i with
  | nil => simp [lastIdxWith] at h
  | cons a l ih =>
    rw [lastIdxWith] at h
    rcases hrec : lastIdxWith p l with _ | j
    · rw [hrec] at h
      by_cases hp : p a = true
      · rw [if_pos hp] at h
        simp only [Option.some.injEq] at h
        subst h
        exact ⟨a, by simp, hp⟩
      · rw [if_neg hp] at h
        exact Option.noConfusion h
    · rw [hrec] at h
      simp only [Option.some.injEq] at h
      subst h
      rcases ih j hrec with ⟨b, hb, hpb⟩
      exact ⟨b, by simpa using hb, hpb⟩

theorem lastIdxWith_isSome {α : Type} (p : α → Bool) (l : List α) (a : α)
    (ha : a ∈ l) (hp : p a = true) : (lastIdxWith p l).isSome = true := by
  induction l with
  | nil => simp at ha
  | cons b l ih =>
    rw [lastIdxWith]
    rcases hrec : lastIdxWith p l with _ | j
    · rcases List.mem_cons.1 ha with rfl | hm
      · simp [hp]
      · have := ih hm
        rw [hrec] at this
        simp at this
    · simp

theorem firstIdxWith_spec {α : Type} (p : α → Bool) (l : List α) (i : ℕ)
    (h : firstIdxWith p l = some i) :
    (∃ a, l[i]? = some a ∧ p a = true) ∧
      ∀ j, j < i → ∀ b, l[j]? = some b → p b = false := by
  induction l generalizing i with
  | nil => simp [firstIdxWith] at h
  | cons a l ih =>
    rw [firstIdxWith] at h
    by_cases hp : p a = true
    · rw [if_pos hp] at h
      simp only [Option.some.injEq] at h
      subst h
      exact ⟨⟨a, by simp, hp⟩, fun j hj => absurd hj (Nat.not_lt_zero j)⟩
    · rw [if_neg hp] at h
      rcases Option.map_eq_some'.1 h with ⟨j, hj, hi⟩
      subst hi
      rcases ih j hj with ⟨⟨b, hb, hpb⟩, hprior⟩
      refine ⟨⟨b, by simpa using hb, hpb⟩, ?_⟩
      intro k hk c hc
      cases k with
      | zero =>
        simp only [List.getElem?_cons_zero, Option.some.injEq] at hc
        subst hc
        exact Bool.not_eq_true _ ▸ (by simpa using hp)
      | succ k =>
        exact hprior k (by omega) c (by simpa using hc)

theorem firstIdxWith_isSome {α : Type} (p : α → Bool) (l : List α) (a : α)
    (ha : a ∈ l) (hp : p a = true) : (firstIdxWith p l).isSome = true := by
  induction l with
  | nil => simp at ha
  | cons b l ih =>
    rw [firstIdxWith]
    by_cases hb : p b = true
    · simp [hb]
    · rcases List.mem_cons.1 ha with rfl | hm
      · exact absurd hp hb
      · rw [if_neg hb]
        simpa using ih hm

theorem headerLookup_getElem? (norm : List (List Char)) (k : List Char) (i : ℕ)
    (h : headerLookup norm k = some i) : norm[i]? = some k := by
  rcases lastIdxWith_spec _ _ _ h with ⟨a, ha, hpa⟩
  have hk := of_decide_eq_true hpa
  rw [ha, hk.2]

theorem headerLookup_isSome (norm : List (List Char)) (k : List Char)
    (hk : k ≠ []) (hm : k ∈ norm) : (headerLookup norm k).isSome = true :=
  lastIdxWith_isSome _ _ k hm (decide_eq_true ⟨hk, rfl⟩)

theorem exactPass_cons_some (norm : List (List Char)) (n : String) (ns : List String)
    (i : ℕ) (h : headerLookup norm (normStr n) = some i) :
    exactPass norm (n :: ns) = some i := by
  simp only [exactPass, List.findSome?_cons, h]

theorem exactPass_cons_none (norm : List (List Char)) (n : String) (ns : List String)
    (h : headerLookup norm (normStr n) = none) :
    exactPass norm (n :: ns) = exactPass norm ns := by
  simp only [exactPass, List.findSome?_cons, h]

theorem resolveColumn_of_exact (norm : List (List Char)) (names : List String) (i : ℕ)
    (h : exactPass norm names = some i) : resolveColumn norm names = some i := by
  simp only [resolveColumn, h]

/-- C10: the legacy exact-match `findColumn` tests JS truthiness of the
stored index (`if (headerMap[name])`), so it can never return column 0; in a
header row where the only cells matching the field's synonyms sit at column
index 0, every per-synonym lookup is missing or 0, and the function returns
-1 (modelled as `none`) — the field is left unmapped. -/
theorem C10_legacy_find_column_never_zero (headers : List JSVal) (names : List String) :
    findColumnLegacy headers names ≠ some 0 ∧
    ((∀ n ∈ names, legacyLookup headers (normStr n) = none ∨
        legacyLookup headers (normStr n) = some 0) →
      findColumnLegacy headers names = none) := by
  constructor
  · induction names with
    | nil => simp [findColumnLegacy]
    | cons n ns ih =>
      rw [findColumnLegacy]
      rcases h : legacyLookup headers (normStr n) with _ | k
      · exact ih
      · dsimp only
        by_cases hk : k ≠ 0
        · rw [if_pos hk]
          simp [hk]
        · rw [if_neg hk]
          exact ih
  · intro hall
    induction names with
    | nil => rfl
    | cons n ns ih =>
      rw [findColumnLegacy]
      rcases hall n (List.mem_cons_self n ns) with h | h
      · rw [h]
        exact ih fun m hm => hall m (List.mem_cons_of_mem n hm)
      · rw [h]
        dsimp only
        simp only [ne_eq, not_true_eq_false, if_false]
        exact ih fun m hm => hall m (List.mem_cons_of_mem n hm)

/-- Witness for C10: a header whose only `TERM`-synonym match is the first
column; the legacy lookup leaves the field unmapped and never returns 0. -/
theorem C10_witness :
    findColumnLegacy [.str "TERM", .str "FOO"] ["TERM", "MONTHS", "CONTRACT LENGTH"]
        = none ∧
    findColumnLegacy [.str "TERM", .str "FOO"] ["TERM", "MONTHS", "CONTRACT LENGTH"]
        ≠ some 0 :=
  ⟨(C10_legacy_find_column_never_zero [.str "TERM", .str "FOO"]
      ["TERM", "MONTHS", "CONTRACT LENGTH"]).2 (by decide),
   (C10_legacy_find_column_never_zero [.str "TERM", .str "FOO"]
      ["TERM", "MONTHS", "CONTRACT LENGTH"]).1⟩

/-- C4 (amended): (1) in `LexUpload.js`, whenever the header row contains a
`NET RENTAL CM` cell, the resolved `monthly_cm` column is an exact hit on one
of the synonyms that precede or equal `NET RENTAL CM` in priority order
(`RENTAL`, `LEASE_RENTAL`, `LEASE RENTAL`, `NET RENTAL CM`) — never the
`NET RENTAL WM` cell, but possibly a decoy cell that is exactly `RENTAL`
rather than the CM cell (see the counterexample); (2) in the netlify
resolver, whose `monthly_payment` synonym list starts with `NET RENTAL CM`,
the CM cell itself is always selected; (3) when neither the `monthly_cm` nor
the `monthly_wm` synonyms resolve, the fallback scan only picks a
rental/monthly-like header, preferring one with a customer/driver indicator
and no wholesale indicator whenever such a candidate exists. -/
theorem C4_cm_preferred_over_wm :
    (∀ headers : List String,
      ("NET RENTAL CM").data ∈ headers.map lexNormCell →
      ∃ i cell, lexMonthlyCmIndex headers = some i ∧
        (headers.map lexNormCell)[i]? = some cell ∧
        (cell = ("RENTAL").data ∨ cell = ("LEASE_RENTAL").data ∨
         cell = ("LEASE RENTAL").data ∨ cell = ("NET RENTAL CM").data) ∧
        cell ≠ ("NET RENTAL WM").data) ∧
    (∀ headers : List JSVal,
      ("NET RENTAL CM").data ∈ headers.map p2NormCell →
      ∃ i, p2FindColumn headers p2MonthlyPaymentNames = some i ∧
        (headers.map p2NormCell)[i]? = some (("NET RENTAL CM").data)) ∧
    (∀ (headers : List String) (i : ℕ),
      resolveColumn (headers.map lexNormCell) lexMonthlyCmNames = none →
      resolveColumn (headers.map lexNormCell) lexMonthlyWmNames = none →
      lexMonthlyCmIndex headers = some i →
      ∃ cell, (headers.map lexNormCell)[i]? = some cell ∧ lexRentalLike cell = true ∧
        ((∃ c ∈ headers.map lexNormCell, lexRentalLike c = true ∧
            lexPreferredPred c = true) →
          lexPreferredPred cell = true)) := by
  refine ⟨?_, ?_, ?_⟩
  · intro headers hmem
    have hsome : (headerLookup (headers.map lexNormCell)
        (normStr "NET RENTAL CM")).isSome = true := by
      rw [show normStr "NET RENTAL CM" = ("NET RENTAL CM").data from by decide]
      exact headerLookup_isSome _ _ (by decide) hmem
    rcases h1 : headerLookup (headers.map lexNormCell) (normStr "RENTAL") with _ | i1
    case some =>
      refine ⟨i1, normStr "RENTAL", ?_, headerLookup_getElem? _ _ _ h1, ?_, by decide⟩
      · have hex : exactPass (headers.map lexNormCell) lexMonthlyCmNames = some i1 := by
          simp only [lexMonthlyCmNames]
          exact exactPass_cons_some _ _ _ _ h1
        simp [lexMonthlyCmIndex, resolveColumn_of_exact _ _ _ hex]
      · left
        decide
    case none =>
    rcases h2 : headerLookup (headers.map lexNormCell) (normStr "LEASE_RENTAL") with _ | i2
    case some =>
      refine ⟨i2, normStr "LEASE_RENTAL", ?_, headerLookup_getElem? _ _ _ h2, ?_, by decide⟩
      · have hex : exactPass (headers.map lexNormCell) lexMonthlyCmNames = some i2 := by
          simp only [lexMonthlyCmNames]
          rw [exactPass_cons_none _ _ _ h1]
          exact exactPass_cons_some _ _ _ _ h2
        simp [lexMonthlyCmIndex, resolveColumn_of_exact _ _ _ hex]
      · right
        left
        decide
    case none =>
    rcases h3 : headerLookup (headers.map lexNormCell) (normStr "LEASE RENTAL") with _ | i3
    case some =>
      refine ⟨i3, normStr "LEASE RENTAL", ?_, headerLookup_getElem? _ _ _ h3, ?_, by decide⟩
      · have hex : exactPass (headers.map lexNormCell) lexMonthlyCmNames = some i3 := by
          simp only [lexMonthlyCmNames]
          rw [exactPass_cons_none _ _ _ h1, exactPass_cons_none _ _ _ h2]
          exact exactPass_cons_some _ _ _ _ h3
        simp [lexMonthlyCmIndex, resolveColumn_of_exact _ _ _ hex]
      · right
        right
        left
        decide
    case none =>
    rcases h4 : headerLookup (headers.map lexNormCell) (normStr "NET RENTAL CM") with _ | i4
    case none =>
      rw [h4] at hsome
      simp at hsome
    case some =>
      refine ⟨i4, normStr "NET RENTAL CM", ?_, headerLookup_getElem? _ _ _ h4, ?_, by decide⟩
      · have hex : exactPass (headers.map lexNormCell) lexMonthlyCmNames = some i4 := by
          simp only [lexMonthlyCmNames]
          rw [exactPass_cons_none _ _ _ h1, exactPass_cons_none _ _ _ h2,
            exactPass_cons_none _ _ _ h3]
          exact exactPass_cons_some _ _ _ _ h4
        simp [lexMonthlyCmIndex, resolveColumn_of_exact _ _ _ hex]
      · right
        right
        right
        decide
  · intro headers hmem
    have hsome : (headerLookup (headers.map p2NormCell)
        (normStr "NET RENTAL CM")).isSome = true := by
      rw [show normStr "NET RENTAL CM" = ("NET RENTAL CM").data from by decide]
      exact headerLookup_isSome _ _ (by decide) hmem
    rcases h4 : headerLookup (headers.map p2NormCell) (normStr "NET RENTAL CM") with _ | i
    case none =>
      rw [h4] at hsome
      simp at hsome
    case some =>
      refine ⟨i, ?_, ?_⟩
      · have hex : exactPass (headers.map p2NormCell) p2MonthlyPaymentNames = some i := by
          simp only [p2MonthlyPaymentNames]
          exact exactPass_cons_some _ _ _ _ h4
        simp only [p2FindColumn]
        exact resolveColumn_of_exact _ _ _ hex
      · have := headerLookup_getElem? _ _ _ h4
        rwa [show normStr "NET RENTAL CM" = ("NET RENTAL CM").data from by decide] at this
  · intro headers i hcm hwm hpick
    simp only [lexMonthlyCmIndex, hcm, hwm] at hpick
    simp only [lexHeuristicPick] at hpick
    rcases hfind : ((headers.map lexNormCell).enum.filter
        (fun p => lexRentalLike p.2)).find? (fun p => lexPreferredPred p.2) with _ | pr
    · rw [hfind] at hpick
      dsimp only at hpick
      rcases Option.map_eq_some'.1 hpick with ⟨pq, hhead, hi⟩
      subst hi
      have hmem : pq ∈ (headers.map lexNormCell).enum.filter (fun p => lexRentalLike p.2) :=
        List.mem_of_mem_head? hhead
      rcases List.mem_filter.1 hmem with ⟨henum, hrl⟩
      refine ⟨pq.2, List.mem_enum_iff_getElem?.1 henum, hrl, ?_⟩
      intro hex
      exfalso
      rcases hex with ⟨c, hc, hcrl, hcpref⟩
      rcases List.mem_iff_getElem?.1 hc with ⟨j, hj⟩
      have hcand : ((j, c) : ℕ × List Char) ∈
          (headers.map lexNormCell).enum.filter (fun p => lexRentalLike p.2) :=
        List.mem_filter.2 ⟨List.mem_enum_iff_getElem?.2 hj, hcrl⟩
      have := List.find?_eq_none.1 hfind _ hcand
      simp [hcpref] at this
    · rw [hfind] at hpick
      dsimp only at hpick
      simp only [Option.some.injEq] at hpick
      subst hpick
      have hpref := List.find?_some hfind
      have hmem := List.mem_of_find?_eq_some hfind
      rcases List.mem_filter.1 hmem with ⟨henum, hrl⟩
      exact ⟨pr.2, List.mem_enum_iff_getElem?.1 henum, hrl, fun _ => hpref⟩

/-- C4 counterexample: a header row containing both `NET RENTAL CM` (index 1)
and `NET RENTAL WM` (index 2), plus a decoy first cell that is exactly
`RENTAL`.  `RENTAL` is the highest-priority `monthly_cm` synonym in
`LexUpload.js`, so `monthly_cm` resolves to index 0, *not* to the index of
the `NET RENTAL CM` column. -/
theorem C4_counterexample :
    lexMonthlyCmIndex c4Headers = some 0 ∧
    lexNormCell (c4Headers.getD 1 "") = ("NET RENTAL CM").data ∧
    lexNormCell (c4Headers.getD 0 "") ≠ ("NET RENTAL CM").data := by
  refine ⟨by decide, by decide, by decide⟩

/-- Witness for C4: a two-cell header `NET RENTAL CM, NET RENTAL WM` resolves
in both resolvers, and the fallback scan picks `MONTHLY FEE` for a header
with no rental synonym at all. -/
theorem C4_witness :
    (∃ i cell, lexMonthlyCmIndex ["NET RENTAL CM", "NET RENTAL WM"] = some i ∧
      ((["NET RENTAL CM", "NET RENTAL WM"]).map lexNormCell)[i]? = some cell ∧
      (cell = ("RENTAL").data ∨ cell = ("LEASE_RENTAL").data ∨
       cell = ("LEASE RENTAL").data ∨ cell = ("NET RENTAL CM").data) ∧
      cell ≠ ("NET RENTAL WM").data) ∧
    (∃ i, p2FindColumn [.str "NET RENTAL WM", .str "NET RENTAL CM"]
        p2MonthlyPaymentNames = some i ∧
      (([JSVal.str "NET RENTAL WM", JSVal.str "NET RENTAL CM"]).map
        p2NormCell)[i]? = some (("NET RENTAL CM").data)) ∧
    (∃ cell, ((["FOO", "MONTHLY FEE"]).map lexNormCell)[1]? = some cell ∧
      lexRentalLike cell = true ∧
      ((∃ c ∈ (["FOO", "MONTHLY FEE"]).map lexNormCell, lexRentalLike c = true ∧
          lexPreferredPred c = true) →
        lexPreferredPred cell = true)) :=
  ⟨C4_cm_preferred_over_wm.1 ["NET RENTAL CM", "NET RENTAL WM"] (by decide),
   C4_cm_preferred_over_wm.2.1 [.str "NET RENTAL WM", .str "NET RENTAL CM"] (by decide),
   C4_cm_preferred_over_wm.2.2 ["FOO", "MONTHLY FEE"] 1 (by decide) (by decide) (by decide)⟩

/-! ## Header-row detection theorems (C5) -/

/-- C5 (amended): the netlify detector scans the first 10 rows and accepts
the *first* row with at least 5 resolved fields including both term and
mileage (rows shorter than 5 cells are skipped, and every row before the
accepted one fails the test); whenever some row in the window passes, a
header is detected; the client-side detector accepts any row resolving at
least 3 essential fields — but also rows resolving only manufacturer and
model (see the counterexample).  On a file with 2 junk rows before the
header, the header is detected at index 2 and the junk rows produce no
vehicle record. -/
theorem C5_header_detection :
    (∀ (rows : List (List JSVal)) (i : ℕ), p2DetectHeader rows = some i →
      i < 10 ∧ (∃ r, rows[i]? = some r ∧ p2Accept r = true) ∧
      ∀ j, j < i → ∀ r, rows[j]? = some r → p2Accept r = false) ∧
    (∀ (rows : List (List JSVal)) (i : ℕ) (r : List JSVal),
      i < 10 → rows[i]? = some r → p2Accept r = true →
      (p2DetectHeader rows).isSome = true) ∧
    (∀ row : List String, 3 ≤ lexEssentialMatches row → lexHeaderAccept row = true) ∧
    p2Process c5Rows = some (2, [c5Vehicle]) := by
  refine ⟨?_, ?_, ?_, ?_⟩
  · intro rows i hdet
    rcases firstIdxWith_spec _ _ _ hdet with ⟨⟨r, hr, hacc⟩, hprior⟩
    have hlen : i < (rows.take 10).length := (List.getElem?_eq_some_iff.1 hr).1
    have hi10 : i < 10 := lt_of_lt_of_le hlen (by simp)
    refine ⟨hi10, ⟨r, ?_, hacc⟩, ?_⟩
    · rwa [List.getElem?_take_of_lt hi10] at hr
    · intro j hj q hq
      exact hprior j hj q (by rwa [List.getElem?_take_of_lt (by omega)])
  · intro rows i r hi hr hacc
    have hr10 : (rows.take 10)[i]? = some r := by rwa [List.getElem?_take_of_lt hi]
    exact firstIdxWith_isSome _ _ r (List.getElem?_mem hr10) hacc
  · intro row h
    exact decide_eq_true (Or.inl h)
  · have hdet : p2DetectHeader c5Rows = some 2 := by decide
    have h1 : (((c5Rows.drop (2 + 1)).filter (fun r => r ≠ [])).map
        (p2BuildVehicle (p2ResolveCols (c5Rows.getD 2 [])))).filter p2KeepVehicle
        = [c5Vehicle] := by decide
    have hpq : parseNumeric (JSVal.str "35000") = .fin 35000 := by
      simp +decide [parseNumeric, cleanNumeric, jsParseFloat, parseUnsigned,
        parseExponent, dropWs, digitsToNat, digitVal, fracToQ]
    have h2 : applyOtrProxy c5Vehicle = c5Vehicle := by
      unfold applyOtrProxy
      rw [if_neg]
      intro hcontra
      rcases hcontra with ⟨hzero, _⟩
      rw [show c5Vehicle.p11d = JSVal.str "35000" from rfl, hpq] at hzero
      simp only [JSNum.fin.injEq] at hzero
      norm_num at hzero
    simp only [p2Process, hdet, p2VehiclesAfterHeader, h1, List.map_cons, List.map_nil, h2]

/-- C5 counterexample: the candidate row `MAKE, MODEL, AAA, BBB, CCC`
resolves exactly 2 essential fields (manufacturer and model; in particular
neither term nor mileage), meeting neither claimed threshold, yet the
client-side detector accepts it as the header row. -/
theorem C5_counterexample :
    lexHeaderAccept c5LexRow = true ∧ lexEssentialMatches c5LexRow = 2 ∧
    (lexFindColumn c5LexRow lexTermNames).isSome = false ∧
    (lexFindColumn c5LexRow lexMileageNames).isSome = false := by
  refine ⟨by decide, by decide, by decide, by decide⟩

/-- Witness for C5 at the junk-prefixed file and a 3-field header row. -/
theorem C5_witness :
    (2 < 10 ∧ (∃ r, c5Rows[2]? = some r ∧ p2Accept r = true) ∧
      ∀ j, j < 2 → ∀ r, c5Rows[j]? = some r → p2Accept r = false) ∧
    (p2DetectHeader c5Rows).isSome = true ∧
    lexHeaderAccept ["MANUFACTURER", "MODEL", "MONTHLY RENTAL"] = true :=
  ⟨C5_header_detection.1 c5Rows 2 (by decide),
   C5_header_detection.2.1 c5Rows 2
     [.str "MANUFACTURER", .str "MODEL", .str "MONTHLY PAYMENT", .str "P11D",
      .str "TERM", .str "MILEAGE", .str "MPG"] (by norm_num) (by decide) (by decide),
   C5_header_detection.2.2.1 ["MANUFACTURER", "MODEL", "MONTHLY RENTAL"] (by decide)⟩
